import Mathlib

/-!
# Verification of the Remembrall WhatsApp/Notion task bot

Shallow embedding of the command-interpretation and reminder-scheduling
logic of the repository (src/main.py, src/notion.py, src/reminders.py,
src/storage.py), together with proofs about the embedded functions.

Python strings are modelled as `List Char` (`Str`); Python `None` as
`Option.none`; functions that can raise return `Option`.  External
collaborators (the Notion HTTP API, Twilio, the pickle file) are modelled
as explicit arguments or threaded state, as described at each definition.
-/

namespace Remembrall

/-- Python strings, modelled as lists of characters. -/
abbrev Str := List Char

/-! ## String toolkit (models of Python `str` methods used by the code) -/

/-- Models Python `str.strip()` (whitespace trimmed from both ends). -/
def pyStrip (s : Str) : Str :=
  ((s.dropWhile Char.isWhitespace).reverse.dropWhile Char.isWhitespace).reverse

/-- Models Python `str.lower()`. -/
def pyLower (s : Str) : Str := s.map Char.toLower

/-- Models Python `str.capitalize()`: first character upper-cased, the rest
lower-cased. -/
def pyCapitalize : Str → Str
  | [] => []
  | c :: cs => Char.toUpper c :: cs.map Char.toLower

/-- Models Python `str.split(sep)` for a one-character separator: split at
every occurrence, keeping empty pieces. -/
def splitOnChar (sep : Char) : Str → List Str
  | [] => [[]]
  | c :: cs =>
    let r := splitOnChar sep cs
    if c = sep then [] :: r
    else
      match r with
      | [] => [[c]]
      | h :: t => (c :: h) :: t

/-- Models Python `str.split()` (no argument): split on whitespace runs,
dropping empty pieces. -/
def splitWhitespaceAux : Str → List Str
  | [] => [[]]
  | c :: cs =>
    let r := splitWhitespaceAux cs
    if c.isWhitespace then [] :: r
    else
      match r with
      | [] => [[c]]
      | h :: t => (c :: h) :: t

def splitWhitespace (s : Str) : List Str :=
  (splitWhitespaceAux s).filter (· ≠ [])

/-- Models Python `needle in hay` substring test. -/
def containsSub (needle : Str) : Str → Bool
  | [] => needle.isEmpty
  | c :: rest => needle.isPrefixOf (c :: rest) || containsSub needle rest

/-- The mathematical substring relation used to specify `containsSub`. -/
def SubstringOf (needle hay : Str) : Prop :=
  ∃ p s, hay = p ++ needle ++ s

/-- Lexicographic `≤` on strings by code point, as Python compares `str`. -/
def strLe : Str → Str → Bool
  | [], _ => true
  | _ :: _, [] => false
  | a :: as, b :: bs => if a < b then true else if b < a then false else strLe as bs

/-- Strict lexicographic `<` on strings, derived from `strLe`. -/
def strLt (a b : Str) : Bool := strLe a b && !strLe b a

/-! ## Flag extraction (`parse_add_args`, src/main.py lines 191-216) -/

/-- Result of `parse_add_args`: the primary value and the five optional
flags, each `none` when absent (Python `None`). -/
structure AddArgs where
  task_text : Str
  reminder : Option Str
  priority : Option Str
  recurrence : Option Str
  tags : Option (List Str)
  notes : Option Str
deriving DecidableEq, Repr

/-- One iteration of the `for part in parts[1:]` loop of `parse_add_args`:
the if/elif chain matching the lower-cased part against the fixed flag
word followed by a space, and overwriting the corresponding field. -/
def applyFlagPart (acc : AddArgs) (part : Str) : AddArgs :=
  let lowered := pyLower part
  if "reminder ".data.isPrefixOf lowered then
    { acc with reminder := some (pyStrip (part.drop 9)) }
  else if "priority ".data.isPrefixOf lowered then
    { acc with priority := some (pyCapitalize (pyStrip (part.drop 9))) }
  else if "recurrence ".data.isPrefixOf lowered then
    { acc with recurrence := some (pyCapitalize (pyStrip (part.drop 11))) }
  else if "repeat ".data.isPrefixOf lowered then
    { acc with recurrence := some (pyCapitalize (pyStrip (part.drop 7))) }
  else if "tags ".data.isPrefixOf lowered then
    { acc with tags := some (((splitOnChar ',' (part.drop 5)).map pyStrip).filter (· ≠ [])) }
  else if "notes ".data.isPrefixOf lowered then
    { acc with notes := some (pyStrip (part.drop 6)) }
  else acc

/-- Models `re.split(r'\s*/\s*', args)` followed by the per-part `strip()`
of the list comprehension: since every part is stripped afterwards anyway,
this equals splitting on `/` and stripping each piece (the regex only
consumes whitespace adjacent to slashes). -/
def pySplitSlash (args : Str) : List Str :=
  (splitOnChar '/' args).map pyStrip

/-- `parse_add_args` (src/main.py:191-216): first segment is the primary
value, remaining segments are folded through the if/elif chain. -/
def parse_add_args (args : Str) : AddArgs :=
  let parts := pySplitSlash args
  (parts.tail).foldl applyFlagPart
    ⟨parts.headD [], none, none, none, none, none⟩

/-- The five flag fields.  `recurrence` and `repeat` both set the
recurrence field (`repeat` is an alias in the source), so they map to the
same constructor. -/
inductive Field
  | reminder | priority | recurrence | tags | notes
deriving DecidableEq, Repr

/-- Which field (if any) a segment sets, mirroring the if/elif chain. -/
def fieldOf (part : Str) : Option Field :=
  let lowered := pyLower part
  if "reminder ".data.isPrefixOf lowered then some .reminder
  else if "priority ".data.isPrefixOf lowered then some .priority
  else if "recurrence ".data.isPrefixOf lowered then some .recurrence
  else if "repeat ".data.isPrefixOf lowered then some .recurrence
  else if "tags ".data.isPrefixOf lowered then some .tags
  else if "notes ".data.isPrefixOf lowered then some .notes
  else none

/-- Value a matched `reminder` segment writes. -/
def extractReminderVal (part : Str) : Str := pyStrip (part.drop 9)

/-- Value a matched `priority` segment writes. -/
def extractPriorityVal (part : Str) : Str := pyCapitalize (pyStrip (part.drop 9))

/-- Value a matched `recurrence`/`repeat` segment writes. -/
def extractRecurrenceVal (part : Str) : Str :=
  if "recurrence ".data.isPrefixOf (pyLower part) then pyCapitalize (pyStrip (part.drop 11))
  else pyCapitalize (pyStrip (part.drop 7))

/-- Value a matched `tags` segment writes. -/
def extractTagsVal (part : Str) : List Str :=
  ((splitOnChar ',' (part.drop 5)).map pyStrip).filter (· ≠ [])

/-- Value a matched `notes` segment writes. -/
def extractNotesVal (part : Str) : Str := pyStrip (part.drop 6)

/-- Segment lists in which two distinct segments never set the same field
(`recurrence` and `repeat` count as the same flag, as in the source). -/
def DistinctFlags (l : List Str) : Prop :=
  ∀ x ∈ l, ∀ y ∈ l, x ≠ y → fieldOf x = none ∨ fieldOf y = none ∨ fieldOf x ≠ fieldOf y

/-! ## Recurrence advancement (`get_next_reminder_date`, src/reminders.py:82-93)

The function parses an ISO-8601 string with `datetime.fromisoformat` and
returns `dt.isoformat()`; the embedding works at the parsed level, on a
record of the datetime fields.  `datetime` arithmetic that can raise
(`datetime.replace` with a day that does not exist in the target month
raises `ValueError`) returns `Option`. -/

/-- The fields of a Python `datetime` (the fixed utcoffset of its `tzinfo`
is carried through unchanged by `timedelta` addition and `replace`). -/
structure PyDateTime where
  year : Nat
  month : Nat
  day : Nat
  hour : Nat
  minute : Nat
  second : Nat
  offsetMinutes : Int
deriving DecidableEq, Repr

/-- Gregorian leap-year rule, as Python's `calendar`/`datetime` use it. -/
def isLeapYear (y : Nat) : Bool :=
  (y % 4 == 0 && y % 100 != 0) || y % 400 == 0

/-- Number of days in a month of a given year (0 outside 1..12),
the `_DAYS_IN_MONTH` table of Python's `datetime`. -/
def daysInMonth (y m : Nat) : Nat :=
  match m with
  | 1 => 31
  | 2 => if isLeapYear y then 29 else 28
  | 3 => 31
  | 4 => 30
  | 5 => 31
  | 6 => 30
  | 7 => 31
  | 8 => 31
  | 9 => 30
  | 10 => 31
  | 11 => 30
  | 12 => 31
  | _ => 0

/-- A (year, month, day) triple denotes a real calendar date. -/
def ValidYMD (y m d : Nat) : Prop :=
  1 ≤ m ∧ m ≤ 12 ∧ 1 ≤ d ∧ d ≤ daysInMonth y m

/-- The calendar successor of a date: `datetime + timedelta(days=1)`
advances the date part to the next calendar day (Python implements this
via the proleptic-Gregorian ordinal; on valid dates that is exactly the
field-level rollover below). -/
def nextYMD (y m d : Nat) : Nat × Nat × Nat :=
  if d < daysInMonth y m then (y, m, d + 1)
  else if m < 12 then (y, m + 1, 1)
  else (y + 1, 1, 1)

/-- `n`-fold calendar-day successor: `datetime + timedelta(days=n)`. -/
def addDaysYMD : Nat → Nat × Nat × Nat → Nat × Nat × Nat
  | 0, x => x
  | n + 1, x => addDaysYMD n (nextYMD x.1 x.2.1 x.2.2)

/-- `dt + timedelta(days=n)`: the date advances, the wall time and the
timezone offset are unchanged. -/
def addDaysDT (n : Nat) (dt : PyDateTime) : PyDateTime :=
  let (y, m, d) := addDaysYMD n (dt.year, dt.month, dt.day)
  { dt with year := y, month := m, day := d }

/-- Models `dt.replace(year=y, month=m)`: Python validates the resulting
date and raises `ValueError` when the current day does not exist in the
target month (or the month is out of range); modelled as `none`. -/
def pyReplaceYearMonth (dt : PyDateTime) (y m : Nat) : Option PyDateTime :=
  if 1 ≤ m ∧ m ≤ 12 ∧ 1 ≤ dt.day ∧ dt.day ≤ daysInMonth y m then
    some { dt with year := y, month := m }
  else none

/-- `get_next_reminder_date` (src/reminders.py:82-93), at the parsed
datetime level.  `Daily` adds `timedelta(days=1)`, `Weekly` adds
`timedelta(weeks=1)` (= 7 days), `Monthly` naively replaces month/year;
any other recurrence returns the input unchanged. -/
def get_next_reminder_date (dt : PyDateTime) (recurrence : Str) : Option PyDateTime :=
  if recurrence = "Daily".data then some (addDaysDT 1 dt)
  else if recurrence = "Weekly".data then some (addDaysDT 7 dt)
  else if recurrence = "Monthly".data then
    let month := if dt.month < 12 then dt.month + 1 else 1
    let year := dt.year + (if dt.month = 12 then 1 else 0)
    pyReplaceYearMonth dt year month
  else some dt

/-- 366 for leap years, 365 otherwise. -/
def daysInYear (y : Nat) : Nat := if isLeapYear y then 366 else 365

/-- Days in all years before `y` (proleptic, counting from year 0).  Only
differences of this function matter below. -/
def daysBeforeYear : Nat → Nat
  | 0 => 0
  | y + 1 => daysBeforeYear y + daysInYear y

/-- Days in all months of year `y` strictly before month `m`. -/
def daysBeforeMonth (y : Nat) : Nat → Nat
  | 0 => 0
  | m + 1 => daysBeforeMonth y m + daysInMonth y m

/-- Day ordinal of a date (specification-side day count used to state
"plus exactly `n` calendar days"). -/
def toOrdinal (y m d : Nat) : Nat :=
  daysBeforeYear y + daysBeforeMonth y m + (d - 1)

/-- Day ordinal of a `PyDateTime`'s date part. -/
def toOrdinalDT (dt : PyDateTime) : Nat :=
  toOrdinal dt.year dt.month dt.day

/-- Validity of a `PyDateTime`'s date part. -/
def ValidDT (dt : PyDateTime) : Prop := ValidYMD dt.year dt.month dt.day

/-- Same wall time (and offset): the time-of-day fields coincide. -/
def SameWallTime (a b : PyDateTime) : Prop :=
  a.hour = b.hour ∧ a.minute = b.minute ∧ a.second = b.second ∧
    a.offsetMinutes = b.offsetMinutes

/-! ## The reminder scanner (`check_and_send_reminders`, src/reminders.py:31-76)

The infinite `while True` loop is modelled one tick at a time: a tick is
the inner `for task in tasks` loop run at a wall-clock instant `now` over
the task list fetched for that tick.  Instants are seconds (`Int`);
`timedelta(minutes=2)` is 120, `timedelta(minutes=1)` is 60.  External
collaborators are parameters: `phoneDir` models `get_phone_for_task`,
`parse` models `datetime.fromisoformat` (`none` = the caught exception),
and a dispatched Twilio message is recorded in the output list (the
`try/except` in `send_whatsapp_message` never lets a send failure
escape, so dispatch itself cannot stop the scan). -/

/-- A reminder dedup key `(task name, phase)`, as added to `sent_reminders`. -/
abbrev ReminderKey := Str × Str

/-- A dispatched notification: the dedup key it was guarded by and the
recipient phone. -/
structure Dispatched where
  key : ReminderKey
  phone : Str
deriving DecidableEq, Repr

/-- A task as the scanner sees it (the fields of the `list_tasks` dict
that the scan loop reads). -/
structure ScanTask where
  name : Str
  done : Bool
  reminder : Option Str
deriving DecidableEq, Repr

/-- One guarded send-block of the scan loop: when the time window is hit
and the key has not fired, dispatch a notification and mark the key
fired; otherwise leave the state unchanged. -/
def fireWindow (window : Bool) (key : ReminderKey) (phone : Str)
    (st : List ReminderKey × List Dispatched) : List ReminderKey × List Dispatched :=
  if window then
    if key ∈ st.1 then st
    else (key :: st.1, st.2 ++ [⟨key, phone⟩])
  else st

/-- The body of the scanner's `for task in tasks` loop for one task,
threading the `sent_reminders` set (as a list of keys) and accumulating
dispatched notifications.  Skips mirror the source's `continue`s: done
task, missing/empty reminder string, unparsable reminder (caught
exception), missing/empty phone number. -/
def scanTask (phoneDir : Str → Option Str) (parse : Str → Option Int) (now : Int)
    (st : List ReminderKey × List Dispatched) (task : ScanTask) :
    List ReminderKey × List Dispatched :=
  if task.done then st
  else
    match task.reminder with
    | none => st
    | some rstr =>
      if rstr = [] then st
      else
        match parse rstr with
        | none => st
        | some reminderTime =>
          match phoneDir task.name with
          | none => st
          | some phone =>
            if phone = [] then st
            else
              let twoMinutesBefore := reminderTime - 120
              let beforeKey : ReminderKey := (task.name, "2min_before".data)
              let dueKey : ReminderKey := (task.name, "due_now".data)
              let st1 := fireWindow
                (decide (twoMinutesBefore ≤ now ∧ now < twoMinutesBefore + 60))
                beforeKey phone st
              fireWindow (decide (reminderTime ≤ now ∧ now < reminderTime + 60))
                dueKey phone st1

/-- One scanner tick: the loop over the tasks fetched for this tick. -/
def scanTick (phoneDir : Str → Option Str) (parse : Str → Option Int) (now : Int)
    (fired : List ReminderKey) (tasks : List ScanTask) :
    List ReminderKey × List Dispatched :=
  tasks.foldl (scanTask phoneDir parse now) (fired, [])

/-- A sequence of scanner ticks, each with its own `now` and fetched task
list; `sent_reminders` persists across ticks, notifications accumulate. -/
def scanTicks (phoneDir : Str → Option Str) (parse : Str → Option Int)
    (fired : List ReminderKey) : List (Int × List ScanTask) →
    List ReminderKey × List Dispatched
  | [] => (fired, [])
  | (now, tasks) :: rest =>
    let st := scanTick phoneDir parse now fired tasks
    let st' := scanTicks phoneDir parse st.1 rest
    (st'.1, st.2 ++ st'.2)

/-- Number of notifications dispatched for a given key. -/
def sentCount (k : ReminderKey) (sends : List Dispatched) : Nat :=
  sends.countP (fun s => s.key = k)

/-- Dedup invariant between two scanner states for a key `k`: the fired
set only grows, and the notifications dispatched in between number
exactly one when `k` became fired and zero otherwise. -/
def ScanInv (a b : List ReminderKey × List Dispatched) (k : ReminderKey) : Prop :=
  (k ∈ a.1 → k ∈ b.1) ∧
  sentCount k b.2 = sentCount k a.2 + (if k ∈ b.1 ∧ ¬k ∈ a.1 then 1 else 0)

/-- A task the scan loop skips via one of its `continue` branches. -/
def SkippableTask (phoneDir : Str → Option Str) (parse : Str → Option Int)
    (task : ScanTask) : Prop :=
  task.done = true ∨ task.reminder = none ∨ task.reminder = some [] ∨
    (∃ r, task.reminder = some r ∧ parse r = none) ∨
    phoneDir task.name = none ∨ phoneDir task.name = some []

/-- A concrete phone directory used to instantiate the scanner theorems:
task `"t"` has a stored phone, nothing else does. -/
def phoneDirEx : Str → Option Str :=
  fun n => if n = "t".data then some "+123".data else none

/-- A concrete timestamp parser used to instantiate the scanner theorems:
`"2025"` parses to instant 1000, anything else fails. -/
def parseEx : Str → Option Int :=
  fun s => if s = "2025".data then some 1000 else none

/-- A scannable task with reminder instant 1000 under `parseEx`. -/
def taskEx : ScanTask := ⟨"t".data, false, some "2025".data⟩

/-- A task with no phone-directory entry: the scanner skips it. -/
def badTaskEx : ScanTask := ⟨"u".data, false, some "2025".data⟩

/-! ## Tasks, page parsing, sorting, search (src/notion.py) -/

/-- A task dict as built by `list_tasks` (src/notion.py:148-157). -/
structure Task where
  name : Str
  done : Bool
  reminder : Option Str
  priority : Option Str
  recurrence : Option Str
  tags : List Str
  notes : Str
  page_id : Option Str
deriving DecidableEq, Repr

/-- A page of the Notion query response, reduced to the property shapes
`list_tasks` reads: `none` models a missing/null JSON member, the inner
lists hold the `plain_text` (title, notes) or `name` (tags) of each item. -/
structure NotionPage where
  titleItems : Option (List Str)
  doneCheckbox : Option Bool
  dateStart : Option (Option Str)
  prioritySelectName : Option (Option Str)
  recurrenceSelectName : Option (Option Str)
  tagNames : Option (List Str)
  notesItems : Option (List Str)
  page_id : Option Str
deriving DecidableEq, Repr

/-- The per-page extraction of `list_tasks` (src/notion.py:114-157):
each `if` mirrors the truthiness test in the source (`some []` is falsy
in Python, hence treated like absent). -/
def parsePage (page : NotionPage) : Task :=
  let title_text :=
    match page.titleItems with
    | some items => if items = [] then [] else items.flatten
    | none => []
  let done :=
    match page.doneCheckbox with
    | some b => b
    | none => false
  let reminder :=
    match page.dateStart with
    | some start => start
    | none => none
  let priority :=
    match page.prioritySelectName with
    | some n => n
    | none => none
  let recurrence :=
    match page.recurrenceSelectName with
    | some n => n
    | none => none
  let tags :=
    match page.tagNames with
    | some l => l
    | none => []
  let notes :=
    match page.notesItems with
    | some items => if items = [] then [] else items.flatten
    | none => []
  ⟨title_text, done, reminder, priority, recurrence, tags, notes, page.page_id⟩

/-- The sort key of `tasks.sort(key=lambda t: t.get("reminder") or
"9999-12-31T23:59:59Z")`: a missing reminder — or an empty string, which
is falsy under `or` — is keyed as the maximal sentinel date string. -/
def reminderSentinel : Str := "9999-12-31T23:59:59Z".data

def reminderKey (t : Task) : Str :=
  match t.reminder with
  | some r => if r = [] then reminderSentinel else r
  | none => reminderSentinel

/-- Ascending comparison of tasks by reminder key (Python compares the
key strings lexicographically by code point). -/
def reminderLE (a b : Task) : Prop := strLe (reminderKey a) (reminderKey b) = true

instance : DecidableRel reminderLE := fun a b =>
  inferInstanceAs (Decidable (strLe (reminderKey a) (reminderKey b) = true))

/-- `tasks.sort(key=...)`: Python's list sort is a stable ascending sort,
modelled by the stable `List.insertionSort` (extensionally equal to any
stable sort for a total preorder). -/
def sortByReminder (tasks : List Task) : List Task :=
  tasks.insertionSort reminderLE

/-- `list_tasks` (src/notion.py:71-165) after the HTTP query: the pages
of the response are parsed one by one, pages whose title resolves to the
empty string are not appended, and the result is sorted when
`sort_by_reminder` was requested.  (The `user_phone` / priority / tags /
done filters are part of the query sent to the external store and scope
which pages come back; they are not client-side logic.) -/
def list_tasks (pages : List NotionPage) (sort_by_reminder : Bool) : List Task :=
  let tasks := pages.filterMap (fun p =>
    let t := parsePage p
    if t.name = [] then none else some t)
  if sort_by_reminder then sortByReminder tasks else tasks

/-- `sort_flag = "sort" in args.lower()` (src/main.py:294, 308). -/
def sortRequested (args : Str) : Bool :=
  containsSub "sort".data (pyLower args)

/-- `search_tasks` (src/notion.py:420-432 — the second definition of the
name, which shadows the earlier one at 374): keep the tasks whose
lower-cased name contains every whitespace-separated keyword. -/
def search_tasks (keywords : Str) (all_tasks : List Task) : List Task :=
  let keywords_lower := (splitWhitespace keywords).map pyLower
  all_tasks.filter (fun t =>
    keywords_lower.all (fun kw => containsSub kw (pyLower t.name)))

/-- Concrete task "Buy groceries" for the search example. -/
def taskGroceries : Task :=
  ⟨"Buy groceries".data, false, none, none, none, [], [], none⟩

/-- Concrete task "Buy milk" for the search example. -/
def taskMilk : Task :=
  ⟨"Buy milk".data, false, none, none, none, [], [], none⟩

/-- A page parsing to a task named "a" with no reminder. -/
def pageNoRem : NotionPage :=
  ⟨some ["a".data], some false, none, none, none, none, none, some "ida".data⟩

/-- A page parsing to a task named "b" with no reminder. -/
def pageNoRem2 : NotionPage :=
  ⟨some ["b".data], some false, none, none, none, none, none, some "idb".data⟩

/-- A page parsing to a task named "s" whose reminder is exactly the
sort sentinel date string. -/
def pageSentinelRem : NotionPage :=
  ⟨some ["s".data], some false, some (some ("9999-12-31T23:59:59Z".data)),
    none, none, none, none, some "ids".data⟩

/-- A page parsing to a task named "c" with an ordinary reminder. -/
def pageEarlyRem : NotionPage :=
  ⟨some ["c".data], some false, some (some ("2025-08-10T15:00:00Z".data)),
    none, none, none, none, some "idc".data⟩

/-- A page whose title resolves to the empty string. -/
def pageEmptyTitle : NotionPage :=
  ⟨some [], some false, none, none, none, none, none, some "ide".data⟩

/-! ## `delete_all_completed_tasks` (src/notion.py:336-373) -/

/-- A stored task record as the archive path sees it: its page id, its
owner (`User` rich text) and its `Done` checkbox. -/
structure StoredTask where
  page_id : Str
  user : Str
  done : Bool
deriving DecidableEq, Repr

/-- Whether a record matches the owner filter of the query:
`user_phone` is appended as a `User equals` condition only when present. -/
def ownerMatch (owner : Option Str) (p : StoredTask) : Bool :=
  match owner with
  | some u => p.user = u
  | none => true

/-- Models the task-store query issued by `delete_all_completed_tasks`:
the Notion database returns the pages with `Done` equal to `true`,
AND-combined with the owner condition when one was sent. -/
def queryCompleted (store : List StoredTask) (owner : Option Str) : List StoredTask :=
  store.filter (fun p => p.done && ownerMatch owner p)

/-- `delete_all_completed_tasks` after a successful query (`archive`
models the outcome of each `PATCH {"archived": true}`): an empty result
set returns `True` immediately; otherwise every page is archived and the
call succeeds iff all archive requests did.  The second component records
which page ids were sent an archive request. -/
def delete_all_completed_tasks (store : List StoredTask) (owner : Option Str)
    (archive : Str → Bool) : Bool × List Str :=
  let results := queryCompleted store owner
  match results with
  | [] => (true, [])
  | _ =>
    results.foldl
      (fun acc page => (acc.1 && archive page.page_id, acc.2 ++ [page.page_id]))
      (true, [])

/-- A concrete store for instantiating `delete_all_completed_tasks`:
owner "u1" has one incomplete task, the only completed task belongs to
"u2". -/
def storeEx : List StoredTask :=
  [⟨"id1".data, "u1".data, false⟩, ⟨"id2".data, "u2".data, true⟩]

/-- A concrete archive outcome (every archive request succeeds). -/
def archiveEx : Str → Bool := fun _ => true

/-! ## Phone directory (src/storage.py)

`load_data`/`save_data` round-trip a Python dict through a pickle file;
the embedding threads the dict itself (a key-value list with Python dict
semantics: update-in-place on existing keys, append for new keys). -/

abbrev PhoneDict := List (Str × Str)

/-- `data.get(task_name)` on the loaded dict. -/
def dictGet (data : PhoneDict) (k : Str) : Option Str :=
  (data.find? (fun e => e.1 = k)).map (·.2)

/-- `data[task_name] = phone_number`: overwrite the existing entry or
append a new one. -/
def dictSet (data : PhoneDict) (k v : Str) : PhoneDict :=
  if data.any (fun e => e.1 = k) then
    data.map (fun e => if e.1 = k then (k, v) else e)
  else data ++ [(k, v)]

/-- `get_phone_for_task` (src/storage.py:20-22). -/
def get_phone_for_task (data : PhoneDict) (task_name : Str) : Option Str :=
  dictGet data task_name

/-- `set_phone_for_task` (src/storage.py:24-27). -/
def set_phone_for_task (data : PhoneDict) (task_name phone_number : Str) : PhoneDict :=
  dictSet data task_name phone_number

end Remembrall


/-! ## Theorems -/

namespace Remembrall

theorem applyFlagPart_eq (acc : AddArgs) (part : Str) :
    applyFlagPart acc part =
      match fieldOf part with
      | none => acc
      | some .reminder => { acc with reminder := some (extractReminderVal part) }
      | some .priority => { acc with priority := some (extractPriorityVal part) }
      | some .recurrence => { acc with recurrence := some (extractRecurrenceVal part) }
      | some .tags => { acc with tags := some (extractTagsVal part) }
      | some .notes => { acc with notes := some (extractNotesVal part) } := by
  unfold applyFlagPart fieldOf extractReminderVal extractPriorityVal extractRecurrenceVal
    extractTagsVal extractNotesVal
  dsimp only
  split_ifs <;> rfl

theorem applyFlagPart_comm (acc : AddArgs) (x y : Str)
    (h : x = y ∨ fieldOf x = none ∨ fieldOf y = none ∨ fieldOf x ≠ fieldOf y) :
    applyFlagPart (applyFlagPart acc x) y = applyFlagPart (applyFlagPart acc y) x := by
  rcases h with h | h | h | h
  · subst h; rfl
  · simp [applyFlagPart_eq, h]
  · simp [applyFlagPart_eq, h]
  · rcases hx : fieldOf x with _ | fx <;> rcases hy : fieldOf y with _ | fy
    · simp [applyFlagPart_eq, hx, hy]
    · simp [applyFlagPart_eq, hx, hy]
    · simp [applyFlagPart_eq, hx, hy]
    · rw [hx, hy] at h
      cases fx <;> cases fy <;> simp_all [applyFlagPart_eq, hx, hy]

theorem foldl_applyFlagPart_perm (l₁ l₂ : List Str) (acc : AddArgs)
    (hp : l₁.Perm l₂) (hd : DistinctFlags l₁) :
    l₁.foldl applyFlagPart acc = l₂.foldl applyFlagPart acc := by
  refine hp.foldl_eq' ?_ acc
  intro x hx y hy z
  by_cases hxy : x = y
  · subst hxy; rfl
  · exact applyFlagPart_comm z x y (Or.inr (hd x hx y hy hxy))

theorem foldl_applyFlagPart_task_text (l : List Str) (acc : AddArgs) :
    (l.foldl applyFlagPart acc).task_text = acc.task_text := by
  induction l generalizing acc with
  | nil => rfl
  | cons p t ih =>
    rw [List.foldl_cons, ih]
    rw [applyFlagPart_eq]
    rcases h : fieldOf p with _ | f
    · rfl
    · cases f <;> rfl

theorem foldl_applyFlagPart_unmatched (l : List Str) (acc : AddArgs)
    (h : ∀ part ∈ l, fieldOf part = none) :
    l.foldl applyFlagPart acc = acc := by
  induction l generalizing acc with
  | nil => rfl
  | cons p t ih =>
    rw [List.foldl_cons, applyFlagPart_eq, h p (by simp)]
    exact ih acc fun q hq => h q (by simp [hq])

/-- Claim C3: flag extraction never fails (it is a total function); the
primary value is the trimmed first slash-separated segment; unmatched
segments are silently ignored; absent flags stay `none`; for segment
lists in which no two distinct segments set the same field, the result
is invariant under permutation of the flag segments; repeated flags are
resolved last-wins, as the `/priority high /priority low` example shows;
and the spec's worked `add` example extracts exactly as stated. -/
theorem claim_C3 :
    (∀ args : Str, (parse_add_args args).task_text = (pySplitSlash args).headD []) ∧
    (∀ (acc : AddArgs) (part : Str), fieldOf part = none → applyFlagPart acc part = acc) ∧
    (∀ args : Str, (∀ part ∈ (pySplitSlash args).tail, fieldOf part = none) →
      parse_add_args args = ⟨(pySplitSlash args).headD [], none, none, none, none, none⟩) ∧
    (∀ (l₁ l₂ : List Str) (acc : AddArgs), l₁.Perm l₂ → DistinctFlags l₁ →
      l₁.foldl applyFlagPart acc = l₂.foldl applyFlagPart acc) ∧
    (parse_add_args "Buy milk /reminder 2025-08-10T15:00:00 /priority high /tags a,b,c".data =
      ⟨"Buy milk".data, some "2025-08-10T15:00:00".data, some "High".data, none,
        some ["a".data, "b".data, "c".data], none⟩) ∧
    ((parse_add_args "/priority high /priority low".data).priority = some "Low".data) := by
  refine ⟨fun args => foldl_applyFlagPart_task_text _ _, ?_, ?_,
    foldl_applyFlagPart_perm, by decide, by decide⟩
  · intro acc part h
    rw [applyFlagPart_eq, h]
  · intro args h
    exact foldl_applyFlagPart_unmatched _ _ h

theorem claim_C3_witness :
    ["priority high".data, "tags a,b".data].foldl applyFlagPart
        ⟨[], none, none, none, none, none⟩ =
      ["tags a,b".data, "priority high".data].foldl applyFlagPart
        ⟨[], none, none, none, none, none⟩ :=
  claim_C3.2.2.2.1 _ _ _ (by decide) (by unfold DistinctFlags; decide)

theorem daysInMonth_pos {y m : Nat} (h1 : 1 ≤ m) (h12 : m ≤ 12) :
    1 ≤ daysInMonth y m := by
  interval_cases m <;> simp only [daysInMonth] <;> (try split_ifs) <;> omega

theorem daysBeforeMonth_succ (y m : Nat) :
    daysBeforeMonth y (m + 1) = daysBeforeMonth y m + daysInMonth y m := rfl

theorem daysBeforeMonth_twelve (y : Nat) :
    daysBeforeMonth y 12 + daysInMonth y 12 = daysInYear y := by
  have h : daysBeforeMonth y 12 =
      0 + daysInMonth y 0 + daysInMonth y 1 + daysInMonth y 2 + daysInMonth y 3 +
        daysInMonth y 4 + daysInMonth y 5 + daysInMonth y 6 + daysInMonth y 7 +
        daysInMonth y 8 + daysInMonth y 9 + daysInMonth y 10 + daysInMonth y 11 := rfl
  have h2 : daysInMonth y 2 = if isLeapYear y then 29 else 28 := rfl
  have h0 : daysInMonth y 0 = 0 := rfl
  have h1 : daysInMonth y 1 = 31 := rfl
  have h3 : daysInMonth y 3 = 31 := rfl
  have h4 : daysInMonth y 4 = 30 := rfl
  have h5 : daysInMonth y 5 = 31 := rfl
  have h6 : daysInMonth y 6 = 30 := rfl
  have h7 : daysInMonth y 7 = 31 := rfl
  have h8 : daysInMonth y 8 = 31 := rfl
  have h9 : daysInMonth y 9 = 30 := rfl
  have h10 : daysInMonth y 10 = 31 := rfl
  have h11 : daysInMonth y 11 = 30 := rfl
  have h12 : daysInMonth y 12 = 31 := rfl
  unfold daysInYear
  cases hl : isLeapYear y <;> simp only [hl] at h2 ⊢ <;> simp at h2 ⊢ <;> omega

theorem toOrdinal_nextYMD {y m d y2 m2 d2 : Nat} (hv : ValidYMD y m d)
    (h : nextYMD y m d = (y2, m2, d2)) :
    toOrdinal y2 m2 d2 = toOrdinal y m d + 1 := by
  obtain ⟨hm1, hm12, hd1, hdM⟩ := hv
  unfold nextYMD at h
  by_cases h1 : d < daysInMonth y m
  · rw [if_pos h1] at h
    injection h with hy h; injection h with hm hd
    subst hy; subst hm; subst hd
    unfold toOrdinal
    omega
  · rw [if_neg h1] at h
    by_cases h2 : m < 12
    · rw [if_pos h2] at h
      injection h with hy h; injection h with hm hd
      subst hy; subst hm; subst hd
      unfold toOrdinal
      have h3 := daysBeforeMonth_succ y m
      omega
    · rw [if_neg h2] at h
      injection h with hy h; injection h with hm hd
      subst hy; subst hm; subst hd
      have hm' : m = 12 := by omega
      subst hm'
      unfold toOrdinal
      have h3 : daysBeforeYear (y + 1) = daysBeforeYear y + daysInYear y := rfl
      have h4 := daysBeforeMonth_twelve y
      have h5 : daysBeforeMonth (y + 1) 1 = 0 := by
        have e : daysInMonth (y + 1) 0 = 0 := rfl
        simp [daysBeforeMonth, e]
      have h6 : daysInMonth y 12 = 31 := rfl
      have h7 : daysBeforeMonth y 1 = 0 := by
        have e : daysInMonth y 0 = 0 := rfl
        simp [daysBeforeMonth, e]
      omega

theorem validYMD_nextYMD {y m d y2 m2 d2 : Nat} (hv : ValidYMD y m d)
    (h : nextYMD y m d = (y2, m2, d2)) : ValidYMD y2 m2 d2 := by
  obtain ⟨hm1, hm12, hd1, hdM⟩ := hv
  unfold nextYMD at h
  by_cases h1 : d < daysInMonth y m
  · rw [if_pos h1] at h
    injection h with hy h; injection h with hm hd
    subst hy; subst hm; subst hd
    exact ⟨hm1, hm12, by omega, by omega⟩
  · rw [if_neg h1] at h
    by_cases h2 : m < 12
    · rw [if_pos h2] at h
      injection h with hy h; injection h with hm hd
      subst hy; subst hm; subst hd
      refine ⟨by omega, by omega, le_refl 1, ?_⟩
      exact daysInMonth_pos (by omega) (by omega)
    · rw [if_neg h2] at h
      injection h with hy h; injection h with hm hd
      subst hy; subst hm; subst hd
      refine ⟨by omega, by omega, le_refl 1, ?_⟩
      have e : daysInMonth (y + 1) 1 = 31 := rfl
      omega

theorem addDaysYMD_spec : ∀ (n : Nat) (y m d : Nat), ValidYMD y m d →
    ∃ y2 m2 d2, addDaysYMD n (y, m, d) = (y2, m2, d2) ∧
      toOrdinal y2 m2 d2 = toOrdinal y m d + n ∧ ValidYMD y2 m2 d2 := by
  intro n
  induction n with
  | zero =>
    intro y m d h
    exact ⟨y, m, d, rfl, by omega, h⟩
  | succ n ih =>
    intro y m d h
    rcases hn : nextYMD y m d with ⟨y1, m1, d1⟩
    have h1 := toOrdinal_nextYMD h hn
    have h2 := validYMD_nextYMD h hn
    obtain ⟨y2, m2, d2, heq, hord, hval⟩ := ih y1 m1 d1 h2
    refine ⟨y2, m2, d2, ?_, by omega, hval⟩
    show addDaysYMD n (nextYMD y m d) = (y2, m2, d2)
    rw [hn]
    exact heq


theorem addDaysDT_spec (n : Nat) (dt : PyDateTime) (h : ValidDT dt) :
    toOrdinalDT (addDaysDT n dt) = toOrdinalDT dt + n ∧ ValidDT (addDaysDT n dt) ∧
      SameWallTime (addDaysDT n dt) dt := by
  obtain ⟨y2, m2, d2, heq, hord, hval⟩ := addDaysYMD_spec n dt.year dt.month dt.day h
  have he : addDaysDT n dt = { dt with year := y2, month := m2, day := d2 } := by
    unfold addDaysDT
    rw [heq]
  rw [he]
  exact ⟨hord, hval, rfl, rfl, rfl, rfl⟩

/-- Claim C6: for every valid datetime, `get_next_reminder_date` with
recurrence `Daily` returns the datetime advanced by exactly one calendar
day (day ordinal + 1) at the same wall time, and with `Weekly` by exactly
seven calendar days, never failing. -/
theorem claim_C6 (dt : PyDateTime) (h : ValidDT dt) :
    (∃ d1, get_next_reminder_date dt "Daily".data = some d1 ∧
      toOrdinalDT d1 = toOrdinalDT dt + 1 ∧ SameWallTime d1 dt ∧ ValidDT d1) ∧
    (∃ d7, get_next_reminder_date dt "Weekly".data = some d7 ∧
      toOrdinalDT d7 = toOrdinalDT dt + 7 ∧ SameWallTime d7 dt ∧ ValidDT d7) := by
  constructor
  · refine ⟨addDaysDT 1 dt, rfl, ?_⟩
    have h1 := addDaysDT_spec 1 dt h
    exact ⟨h1.1, h1.2.2, h1.2.1⟩
  · refine ⟨addDaysDT 7 dt, ?_, ?_⟩
    · rfl
    · have h7 := addDaysDT_spec 7 dt h
      exact ⟨h7.1, h7.2.2, h7.2.1⟩

theorem claim_C6_witness :
    ValidDT ⟨2025, 8, 10, 15, 0, 0, 0⟩ ∧
    (∃ d1, get_next_reminder_date ⟨2025, 8, 10, 15, 0, 0, 0⟩ "Daily".data = some d1 ∧
      toOrdinalDT d1 = toOrdinalDT ⟨2025, 8, 10, 15, 0, 0, 0⟩ + 1 ∧
      SameWallTime d1 ⟨2025, 8, 10, 15, 0, 0, 0⟩ ∧ ValidDT d1) :=
  ⟨by unfold ValidDT ValidYMD; decide,
    (claim_C6 ⟨2025, 8, 10, 15, 0, 0, 0⟩ (by unfold ValidDT ValidYMD; decide)).1⟩

/-- Claim C1 counterexample: `get_next_reminder_date` applied to
2025-01-31T10:00:00+00:00 with recurrence `Monthly` does not return a
"2025-02-31"-equivalent timestamp — `datetime.replace(month=2)` raises
`ValueError` (modelled as `none`), so no timestamp is returned at all. -/
theorem claim_C1_counterexample :
    get_next_reminder_date ⟨2025, 1, 31, 10, 0, 0, 0⟩ "Monthly".data = none := by decide

/-- Claim C1 (amended): for every valid datetime, `Monthly` recurrence
returns the same day-of-month and wall time with the month incremented
(December rolling to January of the next year) and no end-of-month
clamping, provided the day exists in the target month; when it does not
(e.g. January 31), the call raises `ValueError` (`none`) instead of
returning an unnormalized timestamp. -/
theorem claim_C1 (dt : PyDateTime) (h : ValidDT dt) :
    (dt.day ≤ daysInMonth (dt.year + (if dt.month = 12 then 1 else 0))
        (if dt.month < 12 then dt.month + 1 else 1) →
      ∃ d2, get_next_reminder_date dt "Monthly".data = some d2 ∧
        d2.day = dt.day ∧
        d2.month = (if dt.month < 12 then dt.month + 1 else 1) ∧
        d2.year = dt.year + (if dt.month = 12 then 1 else 0) ∧
        SameWallTime d2 dt) ∧
    (daysInMonth (dt.year + (if dt.month = 12 then 1 else 0))
        (if dt.month < 12 then dt.month + 1 else 1) < dt.day →
      get_next_reminder_date dt "Monthly".data = none) := by
  obtain ⟨hm1, hm12, hd1, hdM⟩ := h
  have hne : ("Monthly".data ≠ "Daily".data) := by decide
  have hne2 : ("Monthly".data ≠ "Weekly".data) := by decide
  constructor
  · intro hday
    refine ⟨{ dt with year := dt.year + (if dt.month = 12 then 1 else 0),
                      month := if dt.month < 12 then dt.month + 1 else 1 },
        ?_, rfl, rfl, rfl, rfl, rfl, rfl, rfl⟩
    unfold get_next_reminder_date
    rw [if_neg hne, if_neg hne2, if_pos rfl]
    unfold pyReplaceYearMonth
    rw [if_pos]
    refine ⟨by split <;> omega, by split <;> omega, hd1, hday⟩
  · intro hday
    unfold get_next_reminder_date
    rw [if_neg hne, if_neg hne2, if_pos rfl]
    unfold pyReplaceYearMonth
    rw [if_neg]
    intro hc
    omega

theorem claim_C1_witness :
    (∃ d2, get_next_reminder_date ⟨2025, 1, 15, 10, 0, 0, 0⟩ "Monthly".data = some d2 ∧
      d2.day = 15 ∧ d2.month = 2 ∧ d2.year = 2025 ∧
      SameWallTime d2 ⟨2025, 1, 15, 10, 0, 0, 0⟩) ∧
    get_next_reminder_date ⟨2023, 10, 31, 10, 0, 0, 0⟩ "Monthly".data = none :=
  ⟨(claim_C1 ⟨2025, 1, 15, 10, 0, 0, 0⟩
      (by unfold ValidDT ValidYMD; decide)).1 (by decide),
    (claim_C1 ⟨2023, 10, 31, 10, 0, 0, 0⟩
      (by unfold ValidDT ValidYMD; decide)).2 (by decide)⟩

theorem scanInv_refl (st : List ReminderKey × List Dispatched) (k : ReminderKey) :
    ScanInv st st k := by
  refine ⟨id, ?_⟩
  have h : ¬(k ∈ st.1 ∧ ¬k ∈ st.1) := fun ⟨a, b⟩ => b a
  simp [h]

theorem scanInv_comp {a b c : List ReminderKey × List Dispatched} {k : ReminderKey}
    (h1 : ScanInv a b k) (h2 : ScanInv b c k) : ScanInv a c k := by
  obtain ⟨m1, c1⟩ := h1
  obtain ⟨m2, c2⟩ := h2
  refine ⟨fun h => m2 (m1 h), ?_⟩
  by_cases ha : k ∈ a.1
  · have hb := m1 ha
    have hc := m2 hb
    simp [ha, hb, hc] at c1 c2 ⊢
    omega
  · by_cases hb : k ∈ b.1
    · have hc := m2 hb
      simp [ha, hb, hc] at c1 c2 ⊢
      omega
    · simp [ha, hb] at c1 c2 ⊢
      omega

theorem scanInv_add (st : List ReminderKey × List Dispatched) (key : ReminderKey)
    (ph : Str) (k : ReminderKey) (hnm : ¬key ∈ st.1) :
    ScanInv st (key :: st.1, st.2 ++ [⟨key, ph⟩]) k := by
  refine ⟨fun h => List.mem_cons_of_mem _ h, ?_⟩
  unfold sentCount
  rw [List.countP_append]
  by_cases hk : k = key
  · subst hk
    have h1 : (List.countP (fun s : Dispatched => decide (s.key = k)) [⟨k, ph⟩]) = 1 := by simp
    have h2 : k ∈ k :: st.1 := List.mem_cons_self _ _
    simp [h1, h2, hnm, sentCount]
  · have h1 : (List.countP (fun s : Dispatched => decide (s.key = k)) [⟨key, ph⟩]) = 0 := by
      simp only [List.countP_cons, List.countP_nil]
      have : ¬(Dispatched.key ⟨key, ph⟩ = k) := fun hc => hk hc.symm
      simp [this]
    have h2 : ¬(k ∈ key :: st.1 ∧ ¬k ∈ st.1) := by
      rintro ⟨hin, hout⟩
      rcases List.mem_cons.mp hin with h | h
      · exact hk h
      · exact hout h
    simp [h1, h2, sentCount]
    rintro (h | h)
    · exact absurd h hk
    · exact h

theorem fireWindow_inv (w : Bool) (key : ReminderKey) (ph : Str)
    (st : List ReminderKey × List Dispatched) (k : ReminderKey) :
    ScanInv st (fireWindow w key ph st) k := by
  unfold fireWindow
  split
  · split
    · exact scanInv_refl st k
    · exact scanInv_add st key ph k (by assumption)
  · exact scanInv_refl st k

theorem scanTask_inv (pd : Str → Option Str) (parse : Str → Option Int) (now : Int)
    (st : List ReminderKey × List Dispatched) (task : ScanTask) (k : ReminderKey) :
    ScanInv st (scanTask pd parse now st task) k := by
  unfold scanTask
  split
  · exact scanInv_refl st k
  split
  · exact scanInv_refl st k
  split
  · exact scanInv_refl st k
  split
  · exact scanInv_refl st k
  split
  · exact scanInv_refl st k
  split
  · exact scanInv_refl st k
  exact scanInv_comp (fireWindow_inv _ _ _ _ _) (fireWindow_inv _ _ _ _ _)

theorem scanTick_inv (pd : Str → Option Str) (parse : Str → Option Int) (now : Int)
    (tasks : List ScanTask) (st : List ReminderKey × List Dispatched) (k : ReminderKey) :
    ScanInv st (tasks.foldl (scanTask pd parse now) st) k := by
  induction tasks generalizing st with
  | nil => exact scanInv_refl st k
  | cons t ts ih =>
    rw [List.foldl_cons]
    exact scanInv_comp (scanTask_inv pd parse now st t k) (ih _)

theorem scanTicks_inv (pd : Str → Option Str) (parse : Str → Option Int)
    (ticks : List (Int × List ScanTask)) (fired : List ReminderKey) (k : ReminderKey) :
    (k ∈ fired → k ∈ (scanTicks pd parse fired ticks).1) ∧
    sentCount k (scanTicks pd parse fired ticks).2 =
      (if k ∈ (scanTicks pd parse fired ticks).1 ∧ ¬k ∈ fired then 1 else 0) := by
  induction ticks generalizing fired with
  | nil =>
    refine ⟨id, ?_⟩
    have h : ¬(k ∈ fired ∧ ¬k ∈ fired) := fun ⟨a, b⟩ => b a
    simp [scanTicks, h, sentCount]
  | cons tk rest ih =>
    obtain ⟨now, tasks⟩ := tk
    have hsc : scanTick pd parse now fired tasks =
        tasks.foldl (scanTask pd parse now) (fired, []) := rfl
    have h1 := scanTick_inv pd parse now tasks (fired, []) k
    rw [← hsc] at h1
    obtain ⟨m1, c1⟩ := h1
    obtain ⟨m2, c2⟩ := ih (scanTick pd parse now fired tasks).1
    have hval : scanTicks pd parse fired ((now, tasks) :: rest) =
        ((scanTicks pd parse (scanTick pd parse now fired tasks).1 rest).1,
          (scanTick pd parse now fired tasks).2 ++
            (scanTicks pd parse (scanTick pd parse now fired tasks).1 rest).2) := rfl
    rw [hval]
    have hc0 : sentCount k ((fired, ([] : List Dispatched)).2) = 0 := by
      simp [sentCount]
    refine ⟨fun h => m2 (m1 h), ?_⟩
    unfold sentCount at c1 c2 hc0 ⊢
    rw [List.countP_append, c1, c2, hc0]
    by_cases ha : k ∈ fired
    · have hb := m1 ha
      have hc := m2 hb
      simp [ha, hb, hc]
    · by_cases hb : k ∈ (scanTick pd parse now fired tasks).1
      · have hc := m2 hb
        simp [ha, hb, hc]
      · simp [ha, hb]

theorem fireWindow_true_new (key : ReminderKey) (ph : Str)
    (st : List ReminderKey × List Dispatched) (hnm : ¬key ∈ st.1) :
    fireWindow true key ph st = (key :: st.1, st.2 ++ [⟨key, ph⟩]) := by
  unfold fireWindow
  rw [if_pos rfl, if_neg hnm]

theorem fireWindow_false (key : ReminderKey) (ph : Str)
    (st : List ReminderKey × List Dispatched) :
    fireWindow false key ph st = st := rfl

theorem fireWindow_mem (w : Bool) (key : ReminderKey) (ph : Str)
    (st : List ReminderKey × List Dispatched) (hm : key ∈ st.1) :
    fireWindow w key ph st = st := by
  unfold fireWindow
  split <;> simp [hm]

theorem scanTask_fires_before (pd : Str → Option Str) (parse : Str → Option Int)
    (now : Int) (fired : List ReminderKey) (s : List Dispatched) (task : ScanTask)
    (r : Str) (rt : Int) (ph : Str)
    (htd : task.done = false) (hr : task.reminder = some r) (hr0 : ¬r = [])
    (hp : parse r = some rt) (hph : pd task.name = some ph) (hph0 : ¬ph = [])
    (hwin : rt - 120 ≤ now ∧ now < rt - 120 + 60)
    (hnm : ¬(task.name, "2min_before".data) ∈ fired) :
    scanTask pd parse now (fired, s) task =
      ((task.name, "2min_before".data) :: fired,
        s ++ [⟨(task.name, "2min_before".data), ph⟩]) := by
  unfold scanTask
  rw [htd]
  simp only [Bool.false_eq_true, if_false]
  rw [hr]
  simp only
  rw [if_neg hr0, hp]
  simp only
  rw [hph]
  simp only
  rw [if_neg hph0]
  have hw1 : decide (rt - 120 ≤ now ∧ now < rt - 120 + 60) = true := by
    rw [decide_eq_true_eq]; exact hwin
  have hw2 : decide (rt ≤ now ∧ now < rt + 60) = false := by
    rw [decide_eq_false_iff_not]; omega
  rw [hw1, hw2, fireWindow_true_new _ _ _ hnm, fireWindow_false]

theorem scanTask_fires_due (pd : Str → Option Str) (parse : Str → Option Int)
    (now : Int) (fired : List ReminderKey) (s : List Dispatched) (task : ScanTask)
    (r : Str) (rt : Int) (ph : Str)
    (htd : task.done = false) (hr : task.reminder = some r) (hr0 : ¬r = [])
    (hp : parse r = some rt) (hph : pd task.name = some ph) (hph0 : ¬ph = [])
    (hwin : rt ≤ now ∧ now < rt + 60)
    (hnm : ¬(task.name, "due_now".data) ∈ fired) :
    scanTask pd parse now (fired, s) task =
      ((task.name, "due_now".data) :: fired,
        s ++ [⟨(task.name, "due_now".data), ph⟩]) := by
  unfold scanTask
  rw [htd]
  simp only [Bool.false_eq_true, if_false]
  rw [hr]
  simp only
  rw [if_neg hr0, hp]
  simp only
  rw [hph]
  simp only
  rw [if_neg hph0]
  have hw1 : decide (rt - 120 ≤ now ∧ now < rt - 120 + 60) = false := by
    rw [decide_eq_false_iff_not]; omega
  have hw2 : decide (rt ≤ now ∧ now < rt + 60) = true := by
    rw [decide_eq_true_eq]; exact hwin
  rw [hw1, hw2, fireWindow_false, fireWindow_true_new _ _ _ hnm]

theorem scanTask_skippable (pd : Str → Option Str) (parse : Str → Option Int)
    (now : Int) (st : List ReminderKey × List Dispatched) (bad : ScanTask)
    (h : SkippableTask pd parse bad) :
    scanTask pd parse now st bad = st := by
  unfold scanTask
  rcases h with h | h | h | ⟨r, hr, hp⟩ | h | h
  · rw [h]
    simp
  · split
    · rfl
    · rw [h]
  · split
    · rfl
    · rw [h]
      simp
  · split
    · rfl
    · rw [hr]
      simp only
      by_cases hre : r = []
      · rw [if_pos hre]
      · rw [if_neg hre, hp]
  · split
    · rfl
    · rcases hrem : bad.reminder with _ | r
      · rfl
      · simp only
        by_cases hre : r = []
        · rw [if_pos hre]
        · rw [if_neg hre]
          rcases hpr : parse r with _ | rt
          · rfl
          · simp only
            rw [h]
  · split
    · rfl
    · rcases hrem : bad.reminder with _ | r
      · rfl
      · simp only
        by_cases hre : r = []
        · rw [if_pos hre]
        · rw [if_neg hre]
          rcases hpr : parse r with _ | rt
          · rfl
          · simp only
            rw [h]
            simp

/-- Claim C2: for every reminder dedup key and every sequence of scanner
ticks starting from the empty `sent_reminders` set, at most one
notification is ever dispatched for that key; a tick already holding the
key in `sent_reminders` dispatches none for it; and a tick whose time
falls in the key's one-minute window while the key is unfired dispatches
exactly one notification and marks the key fired (stated for both the
`2min_before` and the `due_now` phase). -/
theorem claim_C2 :
    (∀ (pd : Str → Option Str) (parse : Str → Option Int)
        (ticks : List (Int × List ScanTask)) (k : ReminderKey),
      sentCount k (scanTicks pd parse [] ticks).2 ≤ 1) ∧
    (∀ (pd : Str → Option Str) (parse : Str → Option Int)
        (fired : List ReminderKey) (ticks : List (Int × List ScanTask)) (k : ReminderKey),
      k ∈ fired → sentCount k (scanTicks pd parse fired ticks).2 = 0) ∧
    (∀ (pd : Str → Option Str) (parse : Str → Option Int) (now : Int)
        (fired : List ReminderKey) (s : List Dispatched) (task : ScanTask)
        (r : Str) (rt : Int) (ph : Str),
      task.done = false → task.reminder = some r → ¬r = [] →
      parse r = some rt → pd task.name = some ph → ¬ph = [] →
      rt - 120 ≤ now ∧ now < rt - 120 + 60 →
      ¬(task.name, "2min_before".data) ∈ fired →
      scanTask pd parse now (fired, s) task =
        ((task.name, "2min_before".data) :: fired,
          s ++ [⟨(task.name, "2min_before".data), ph⟩])) ∧
    (∀ (pd : Str → Option Str) (parse : Str → Option Int) (now : Int)
        (fired : List ReminderKey) (s : List Dispatched) (task : ScanTask)
        (r : Str) (rt : Int) (ph : Str),
      task.done = false → task.reminder = some r → ¬r = [] →
      parse r = some rt → pd task.name = some ph → ¬ph = [] →
      rt ≤ now ∧ now < rt + 60 →
      ¬(task.name, "due_now".data) ∈ fired →
      scanTask pd parse now (fired, s) task =
        ((task.name, "due_now".data) :: fired,
          s ++ [⟨(task.name, "due_now".data), ph⟩])) := by
  refine ⟨?_, ?_, ?_, ?_⟩
  · intro pd parse ticks k
    have h := (scanTicks_inv pd parse ticks [] k).2
    rw [h]
    split <;> omega
  · intro pd parse fired ticks k hk
    have h := (scanTicks_inv pd parse ticks fired k).2
    rw [h]
    simp [hk]
  · intro pd parse now fired s task r rt ph htd hr hr0 hp hph hph0 hwin hnm
    exact scanTask_fires_before pd parse now fired s task r rt ph htd hr hr0 hp hph hph0 hwin hnm
  · intro pd parse now fired s task r rt ph htd hr hr0 hp hph hph0 hwin hnm
    exact scanTask_fires_due pd parse now fired s task r rt ph htd hr hr0 hp hph hph0 hwin hnm

theorem claim_C2_witness :
    sentCount ("t".data, "2min_before".data)
      (scanTicks phoneDirEx parseEx [("t".data, "2min_before".data)]
        [(880, [taskEx]), (881, [taskEx])]).2 = 0 ∧
    scanTask phoneDirEx parseEx 880 ([], []) taskEx =
      ((("t".data, "2min_before".data)) :: [],
        [] ++ [⟨("t".data, "2min_before".data), "+123".data⟩]) ∧
    scanTask phoneDirEx parseEx 1000 ([], []) taskEx =
      ((("t".data, "due_now".data)) :: [],
        [] ++ [⟨("t".data, "due_now".data), "+123".data⟩]) :=
  ⟨claim_C2.2.1 phoneDirEx parseEx _ _ _ (by decide),
    claim_C2.2.2.1 phoneDirEx parseEx 880 [] [] taskEx "2025".data 1000 "+123".data
      rfl rfl (by decide) (by decide) (by decide) (by decide) (by decide) (by decide),
    claim_C2.2.2.2 phoneDirEx parseEx 1000 [] [] taskEx "2025".data 1000 "+123".data
      rfl rfl (by decide) (by decide) (by decide) (by decide) (by decide) (by decide)⟩

/-- Claim C7: a task that is done, lacks a reminder (or has an empty
one), has an unparsable reminder timestamp, or has no phone-directory
entry leaves the scanner state untouched, and removing it from the tick's
task list does not change the scan of the remaining tasks; the embedded
scan is a total function, so no exception escapes the loop. -/
theorem claim_C7 (pd : Str → Option Str) (parse : Str → Option Int) (now : Int)
    (st : List ReminderKey × List Dispatched) (ts1 : List ScanTask) (bad : ScanTask)
    (ts2 : List ScanTask) (h : SkippableTask pd parse bad) :
    scanTask pd parse now st bad = st ∧
    (ts1 ++ bad :: ts2).foldl (scanTask pd parse now) st =
      (ts1 ++ ts2).foldl (scanTask pd parse now) st := by
  refine ⟨scanTask_skippable pd parse now st bad h, ?_⟩
  rw [List.foldl_append, List.foldl_append, List.foldl_cons,
    scanTask_skippable pd parse now _ bad h]

theorem claim_C7_witness :
    ([taskEx] ++ badTaskEx :: []).foldl (scanTask phoneDirEx parseEx 880) ([], []) =
      ([taskEx] ++ []).foldl (scanTask phoneDirEx parseEx 880) ([], []) :=
  (claim_C7 phoneDirEx parseEx 880 ([], []) [taskEx] badTaskEx []
    (Or.inr (Or.inr (Or.inr (Or.inr (Or.inl rfl)))))).2

theorem isPrefixOf_ex (p : Str) : ∀ l : Str, p.isPrefixOf l = true ↔ ∃ t, l = p ++ t := by
  induction p with
  | nil =>
    intro l
    simp [List.isPrefixOf]
  | cons a as ih =>
    intro l
    cases l with
    | nil =>
      constructor
      · intro h; simp [List.isPrefixOf] at h
      · rintro ⟨t, ht⟩; simp at ht
    | cons b bs =>
      have he : (a :: as).isPrefixOf (b :: bs) = ((a == b) && as.isPrefixOf bs) := rfl
      rw [he, Bool.and_eq_true, beq_iff_eq, ih]
      constructor
      · rintro ⟨rfl, t, rfl⟩
        exact ⟨t, rfl⟩
      · rintro ⟨t, h⟩
        injection h with h1 h2
        exact ⟨h1.symm, t, h2⟩

theorem containsSub_iff (needle : Str) : ∀ hay : Str,
    containsSub needle hay = true ↔ SubstringOf needle hay := by
  intro hay
  induction hay with
  | nil =>
    unfold containsSub SubstringOf
    rw [List.isEmpty_iff]
    constructor
    · rintro rfl
      exact ⟨[], [], rfl⟩
    · rintro ⟨p, s, h⟩
      rcases List.append_eq_nil.mp h.symm with ⟨h1, h2⟩
      rcases List.append_eq_nil.mp h1 with ⟨h3, h4⟩
      exact h4
  | cons c rest ih =>
    unfold containsSub
    rw [Bool.or_eq_true, isPrefixOf_ex, ih]
    constructor
    · rintro (⟨t, ht⟩ | ⟨p, s, hp⟩)
      · exact ⟨[], t, by simpa using ht⟩
      · exact ⟨c :: p, s, by simp [hp]⟩
    · rintro ⟨p, s, hp⟩
      cases p with
      | nil =>
        left
        exact ⟨s, by simpa using hp⟩
      | cons x xs =>
        right
        injection hp with h1 h2
        exact ⟨xs, s, h2⟩

/-- Claim C4: `search_tasks` returns exactly the tasks whose name
contains every whitespace-separated keyword as a case-insensitive
substring (AND semantics); in particular `search buy groc` against
"Buy groceries" and "Buy milk" returns only "Buy groceries". -/
theorem claim_C4 :
    (∀ (keywords : Str) (tasks : List Task) (t : Task),
      t ∈ search_tasks keywords tasks ↔
        t ∈ tasks ∧ ∀ kw ∈ splitWhitespace keywords,
          SubstringOf (pyLower kw) (pyLower t.name)) ∧
    search_tasks "buy groc".data [taskGroceries, taskMilk] = [taskGroceries] := by
  constructor
  · intro keywords tasks t
    unfold search_tasks
    rw [List.mem_filter, List.all_eq_true]
    constructor
    · rintro ⟨hmem, hall⟩
      refine ⟨hmem, fun kw hkw => ?_⟩
      have := hall (pyLower kw) (List.mem_map_of_mem pyLower hkw)
      exact (containsSub_iff _ _).mp this
    · rintro ⟨hmem, hall⟩
      refine ⟨hmem, fun kw hkw => ?_⟩
      rcases List.mem_map.mp hkw with ⟨w, hw, rfl⟩
      exact (containsSub_iff _ _).mpr (hall w hw)
  · decide

theorem claim_C4_witness :
    taskGroceries ∈ search_tasks "buy groc".data [taskGroceries, taskMilk] ↔
      taskGroceries ∈ [taskGroceries, taskMilk] ∧
        ∀ kw ∈ splitWhitespace "buy groc".data,
          SubstringOf (pyLower kw) (pyLower taskGroceries.name) :=
  claim_C4.1 "buy groc".data [taskGroceries, taskMilk] taskGroceries

/-- Claim C9: every task returned by `list_tasks` has a non-empty name
(pages whose title resolves to the empty string are excluded), and the
same holds for every `search_tasks` result built on it. -/
theorem claim_C9 :
    (∀ (pages : List NotionPage) (flag : Bool) (t : Task),
      t ∈ list_tasks pages flag → ¬t.name = []) ∧
    (∀ (pages : List NotionPage) (flag : Bool) (keywords : Str) (t : Task),
      t ∈ search_tasks keywords (list_tasks pages flag) → ¬t.name = []) := by
  have base : ∀ (pages : List NotionPage) (flag : Bool) (t : Task),
      t ∈ list_tasks pages flag → ¬t.name = [] := by
    intro pages flag t ht
    unfold list_tasks at ht
    have hmem : t ∈ pages.filterMap (fun p =>
        let q := parsePage p
        if q.name = [] then none else some q) := by
      rcases flag with _ | _
      · simpa using ht
      · rw [if_pos rfl] at ht
        unfold sortByReminder at ht
        exact (List.mem_insertionSort reminderLE).mp ht
    rcases List.mem_filterMap.mp hmem with ⟨p, _hp, hfp⟩
    by_cases hn : (parsePage p).name = []
    · simp [hn] at hfp
    · rw [if_neg hn] at hfp
      injection hfp with hfp
      rw [← hfp]
      exact hn
  refine ⟨base, ?_⟩
  intro pages flag keywords t ht
  unfold search_tasks at ht
  exact base pages flag t (List.mem_filter.mp ht).1

theorem claim_C9_witness :
    ¬(parsePage pageEarlyRem).name = [] :=
  claim_C9.1 [pageEmptyTitle, pageEarlyRem] false (parsePage pageEarlyRem) (by decide)

theorem strLe_trans : ∀ a b c : Str, strLe a b = true → strLe b c = true → strLe a c = true := by
  intro a
  induction a with
  | nil => intro b c _ _; rfl
  | cons x xs ih =>
    intro b c hab hbc
    cases b with
    | nil => exact absurd hab (by simp [strLe])
    | cons y ys =>
      cases c with
      | nil => exact absurd hbc (by simp [strLe])
      | cons z zs =>
        unfold strLe at hab hbc ⊢
        by_cases hxy : x < y
        · rw [if_pos hxy] at hab
          by_cases hyz : y < z
          · rw [if_pos (lt_trans hxy hyz)]
          · rw [if_neg hyz] at hbc
            by_cases hzy : z < y
            · rw [if_pos hzy] at hbc
              exact absurd hbc (by simp)
            · have hyez : y = z := le_antisymm (le_of_not_lt hzy) (le_of_not_lt hyz)
              subst hyez
              rw [if_pos hxy]
        · rw [if_neg hxy] at hab
          by_cases hyx : y < x
          · rw [if_pos hyx] at hab
            exact absurd hab (by simp)
          · rw [if_neg hyx] at hab
            have hxey : x = y := le_antisymm (le_of_not_lt hyx) (le_of_not_lt hxy)
            subst hxey
            by_cases hyz : x < z
            · rw [if_pos hyz] at hbc ⊢
            · rw [if_neg hyz] at hbc ⊢
              by_cases hzy : z < x
              · rw [if_pos hzy] at hbc
                exact absurd hbc (by simp)
              · rw [if_neg hzy] at hbc ⊢
                exact ih ys zs hab hbc

theorem strLe_total : ∀ a b : Str, strLe a b = true ∨ strLe b a = true := by
  intro a
  induction a with
  | nil => intro b; left; rfl
  | cons x xs ih =>
    intro b
    cases b with
    | nil => right; rfl
    | cons y ys =>
      unfold strLe
      rcases lt_trichotomy x y with h | h | h
      · left; rw [if_pos h]
      · subst h
        rcases ih ys with h2 | h2
        · left
          rw [if_neg (lt_irrefl x), if_neg (lt_irrefl x)]
          exact h2
        · right
          rw [if_neg (lt_irrefl x), if_neg (lt_irrefl x)]
          exact h2
      · right; rw [if_pos h]

theorem sortByReminder_sorted (ts : List Task) :
    List.Sorted reminderLE (sortByReminder ts) := by
  have htot : IsTotal Task reminderLE := ⟨fun a b => strLe_total _ _⟩
  have htrans : IsTrans Task reminderLE :=
    ⟨fun a b c hab hbc => strLe_trans _ _ _ hab hbc⟩
  exact @List.sorted_insertionSort Task reminderLE _ htot htrans ts

theorem sorted_none_after_some (res : List Task)
    (hsorted : List.Sorted reminderLE res)
    (hbelow : ∀ t ∈ res, t.reminder = none ∨
      strLt (reminderKey t) reminderSentinel = true)
    (i j : Fin res.length) (hij : (i : Nat) < (j : Nat))
    (hinone : (res.get i).reminder = none) : (res.get j).reminder = none := by
  have hrel : reminderLE (res.get i) (res.get j) :=
    List.Sorted.rel_get_of_lt hsorted (show i < j from hij)
  have hkeyi : reminderKey (res.get i) = reminderSentinel := by
    unfold reminderKey
    rw [hinone]
  rcases hj : (res.get j).reminder with _ | r
  · rfl
  · exfalso
    rcases hbelow (res.get j) (List.get_mem res j.1 j.2) with h | h
    · rw [hj] at h
      cases h
    · unfold strLt at h
      rw [Bool.and_eq_true] at h
      obtain ⟨h1, h2⟩ := h
      rw [Bool.not_eq_true'] at h2
      unfold reminderLE at hrel
      rw [hkeyi] at hrel
      rw [hrel] at h2
      cases h2

/-- Claim C5 (amended): when the trailing text of a list command
contains the keyword `sort`, the returned task list is ordered ascending
by the reminder sort key (lexicographic comparison of the reminder
string, with a missing or empty reminder keyed as the maximal sentinel
"9999-12-31T23:59:59Z"), and — provided every present reminder's key is
lexicographically below the sentinel, as any real pre-year-9999 ISO
timestamp is — every task lacking a reminder is placed after all tasks
that have one. -/
theorem claim_C5 (args : Str) (pages : List NotionPage)
    (hsort : sortRequested args = true)
    (hbelow : ∀ t ∈ list_tasks pages (sortRequested args),
      t.reminder = none ∨ strLt (reminderKey t) reminderSentinel = true) :
    List.Sorted reminderLE (list_tasks pages (sortRequested args)) ∧
    (∀ (i j : Fin (list_tasks pages (sortRequested args)).length),
      (i : Nat) < (j : Nat) →
      ((list_tasks pages (sortRequested args)).get i).reminder = none →
      ((list_tasks pages (sortRequested args)).get j).reminder = none) := by
  rw [hsort] at hbelow ⊢
  have heq : list_tasks pages true = sortByReminder (pages.filterMap (fun p =>
      let t := parsePage p
      if t.name = [] then none else some t)) := by
    unfold list_tasks
    rw [if_pos rfl]
  rw [heq] at hbelow ⊢
  have hsorted := sortByReminder_sorted (pages.filterMap (fun p =>
      let t := parsePage p
      if t.name = [] then none else some t))
  refine ⟨hsorted, ?_⟩
  intro i j hij hinone
  exact sorted_none_after_some _ hsorted hbelow i j hij hinone

/-- Claim C5 counterexample: with sort requested, a task lacking a
reminder stays before a task whose reminder equals the sentinel date
(the stable sort treats both keys as equal), so the claim's "every task
lacking a reminder is placed after all tasks that have one" fails as
stated. -/
theorem claim_C5_counterexample :
    sortRequested "sort".data = true ∧
    (list_tasks [pageNoRem, pageSentinelRem] (sortRequested "sort".data)).map
        Task.reminder = [none, some reminderSentinel] := by
  decide

theorem claim_C5_witness :
    ((list_tasks [pageNoRem, pageNoRem2, pageEarlyRem] (sortRequested "sort".data)).get
        ⟨2, by decide⟩).reminder = none :=
  (claim_C5 "sort".data [pageNoRem, pageNoRem2, pageEarlyRem]
      (by decide) (by decide)).2 ⟨1, by decide⟩ ⟨2, by decide⟩
    (by decide) (by decide)

/-- Claim C8: `delete_all_completed_tasks` for an owner with zero
completed tasks returns success (`True`), and no archive request is
issued in that case (the second component lists the issued archives). -/
theorem claim_C8 (store : List StoredTask) (owner : Option Str)
    (archive : Str → Bool)
    (h : ∀ p ∈ store, p.done = true → ownerMatch owner p = false) :
    delete_all_completed_tasks store owner archive = (true, []) := by
  have hq : queryCompleted store owner = [] := by
    unfold queryCompleted
    rw [List.filter_eq_nil_iff]
    intro p hp
    rw [Bool.and_eq_true]
    rintro ⟨hd, hm⟩
    rw [h p hp hd] at hm
    cases hm
  unfold delete_all_completed_tasks
  rw [hq]

theorem claim_C8_witness :
    delete_all_completed_tasks storeEx (some "u1".data) archiveEx = (true, []) :=
  claim_C8 storeEx (some "u1".data) archiveEx (by decide)

theorem dictGet_set_same (d : PhoneDict) (n p : Str) :
    dictGet (dictSet d n p) n = some p := by
  induction d with
  | nil =>
    simp [dictSet, dictGet]
  | cons e rest ih =>
    by_cases he : e.1 = n
    · have hany : (e :: rest).any (fun x => decide (x.1 = n)) = true := by
        simp [List.any_cons, he]
      unfold dictSet
      rw [if_pos hany, List.map_cons, if_pos he]
      unfold dictGet
      rw [List.find?_cons]
      simp
    · unfold dictSet at ih ⊢
      by_cases hany : rest.any (fun x => decide (x.1 = n)) = true
      · have hany2 : (e :: rest).any (fun x => decide (x.1 = n)) = true := by
          simp [List.any_cons, hany]
        rw [if_pos hany2, List.map_cons, if_neg he]
        rw [if_pos hany] at ih
        unfold dictGet at ih ⊢
        rw [List.find?_cons]
        have hd : (decide (e.1 = n)) = false := by simp [he]
        simp only [hd]
        exact ih
      · have hany2 : ¬(e :: rest).any (fun x => decide (x.1 = n)) = true := by
          simp [List.any_cons] at hany ⊢
          exact ⟨he, hany⟩
        rw [if_neg hany2]
        rw [if_neg hany] at ih
        unfold dictGet at ih ⊢
        rw [List.cons_append, List.find?_cons]
        have hd : (decide (e.1 = n)) = false := by simp [he]
        simp only [hd]
        exact ih

theorem find_map_set {m n : Str} (p : Str) (hmn : ¬m = n) (d : PhoneDict) :
    List.find? (fun x => decide (x.1 = m))
        (d.map (fun e => if e.1 = n then (n, p) else e)) =
      List.find? (fun x => decide (x.1 = m)) d := by
  induction d with
  | nil => rfl
  | cons e rest ih =>
    rw [List.map_cons, List.find?_cons, List.find?_cons]
    by_cases hen : e.1 = n
    · rw [if_pos hen]
      have h1 : (decide ((n, p).1 = m)) = false := by
        simp only [decide_eq_false_iff_not]
        exact fun hc => hmn hc.symm
      have h2 : (decide (e.1 = m)) = false := by
        simp only [decide_eq_false_iff_not]
        exact fun hc => hmn ((hc ▸ hen) : m = n)
      simp only [h1, h2]
      exact ih
    · rw [if_neg hen]
      cases hem : (decide (e.1 = m)) with
      | false =>
        simp only [hem]
        exact ih
      | true => simp only [hem]

theorem find_append_single {m n : Str} (p : Str) (hmn : ¬m = n) (d : PhoneDict) :
    List.find? (fun x => decide (x.1 = m)) (d ++ [(n, p)]) =
      List.find? (fun x => decide (x.1 = m)) d := by
  induction d with
  | nil =>
    have h1 : (decide ((n, p).1 = m)) = false := by
      simp only [decide_eq_false_iff_not]
      exact fun hc => hmn hc.symm
    rw [List.nil_append, List.find?_cons]
    simp only [h1]
  | cons e rest ih =>
    rw [List.cons_append, List.find?_cons, List.find?_cons]
    cases hem : (decide (e.1 = m)) with
    | false =>
      simp only [hem]
      exact ih
    | true => simp only [hem]

theorem dictGet_set_other (d : PhoneDict) (n p m : Str) (hmn : ¬m = n) :
    dictGet (dictSet d n p) m = dictGet d m := by
  unfold dictSet
  split
  · unfold dictGet
    rw [find_map_set p hmn d]
  · unfold dictGet
    rw [find_append_single p hmn d]

theorem get_never_set (n : Str) : ∀ (ops : List (Str × Str)) (d : PhoneDict),
    dictGet d n = none → (∀ op ∈ ops, ¬op.1 = n) →
    dictGet (ops.foldl (fun acc op => dictSet acc op.1 op.2) d) n = none := by
  intro ops
  induction ops with
  | nil =>
    intro d h _
    exact h
  | cons op rest ih =>
    intro d h hall
    rw [List.foldl_cons]
    refine ih _ ?_ (fun q hq => hall q (List.mem_cons_of_mem _ hq))
    rw [dictGet_set_other d op.1 op.2 n
      (fun hc => hall op (List.mem_cons_self _ _) hc.symm)]
    exact h

/-- Claim C10: in the phone directory, a get right after a set of the
same task name returns the phone just stored regardless of prior
contents (last write wins, keyed solely by task name); a set leaves every
other name's lookup unchanged; and a name never set resolves to `none`
after any sequence of sets for other names. -/
theorem claim_C10 :
    (∀ (data : PhoneDict) (n p : Str),
      get_phone_for_task (set_phone_for_task data n p) n = some p) ∧
    (∀ (data : PhoneDict) (n p m : Str), ¬m = n →
      get_phone_for_task (set_phone_for_task data n p) m = get_phone_for_task data m) ∧
    (∀ (ops : List (Str × Str)) (n : Str), (∀ op ∈ ops, ¬op.1 = n) →
      get_phone_for_task
        (ops.foldl (fun d op => set_phone_for_task d op.1 op.2) []) n = none) := by
  refine ⟨fun d n p => dictGet_set_same d n p,
    fun d n p m h => dictGet_set_other d n p m h, ?_⟩
  intro ops n hall
  exact get_never_set n ops [] rfl hall

theorem claim_C10_witness :
    get_phone_for_task
        (set_phone_for_task [("a".data, "1".data)] "a".data "2".data) "a".data =
      some "2".data ∧
    get_phone_for_task (set_phone_for_task [] "a".data "1".data) "b".data =
      get_phone_for_task [] "b".data ∧
    get_phone_for_task
        ([("x".data, "9".data)].foldl
          (fun d op => set_phone_for_task d op.1 op.2) []) "a".data = none :=
  ⟨claim_C10.1 [("a".data, "1".data)] "a".data "2".data,
    claim_C10.2.1 [] "a".data "1".data "b".data (by decide),
    claim_C10.2.2 [("x".data, "9".data)] "a".data (by decide)⟩

end Remembrall
